import Mathlib

/-!
Verification of the celestial-geometry and trajectory pipeline of `astro-ui`.

The numeric code of the repository works on IEEE doubles; following the
specification ("in exact real arithmetic") we embed all numeric values as
real numbers.  Sources embedded here:

* `src/src/three/buildObjects.ts` — `toXYZ`, `buildTrajectoryLinesSplitByHorizon`,
  `buildPoints`;
* `src/unnamed/part_000` (the astronomy module) — `toAzFromNorth`,
  `buildSunTrajectory`;
* `src/src/three/Scene3D.tsx` — the pixel loop of `updateMoonAge`;
* `src/src/lib/geo.ts` — `searchCity`.
-/

open scoped Classical

/-- One trajectory sample (`TrajPoint` in `src/unnamed/part_000`).
`t` is the epoch-milliseconds instant of the JS `Date`, `azN` the
north-referenced azimuth in radians, `alt` the altitude in radians and
`illum` the optional lunar illuminated fraction. -/
structure TrajPoint where
  t : ℤ
  azN : ℝ
  alt : ℝ
  illum : Option ℝ

/-- A 3D vector, standing for `THREE.Vector3`. -/
abbrev Vec3 : Type := ℝ × ℝ × ℝ

/-- `toXYZ` of `buildObjects.ts` (lines 18–31):
`r = R·cos(alt)`, `x = r·sin(az)`, `z = r·cos(az)`, `y = R·sin(alt)`. -/
noncomputable def toXYZ (p : TrajPoint) (R : ℝ) : Vec3 :=
  let az := p.azN
  let alt := p.alt
  let r := R * Real.cos alt
  (r * Real.sin az, R * Real.sin alt, r * Real.cos az)

/-- Squared Euclidean norm of a `Vec3`. -/
def normSq (v : Vec3) : ℝ := v.1 * v.1 + v.2.1 * v.2.1 + v.2.2 * v.2.2

/-- Truncation toward zero, as used by the JavaScript `%` operator on doubles. -/
noncomputable def jsTrunc (t : ℝ) : ℤ := if 0 ≤ t then ⌊t⌋ else ⌈t⌉

/-- The JavaScript remainder operator `x % y` on doubles:
`x - y * trunc(x / y)` (the result carries the sign of `x`). -/
noncomputable def jsMod (x y : ℝ) : ℝ := x - y * (jsTrunc (x / y) : ℤ)

/-- `toAzFromNorth` of the astronomy module (`src/unnamed/part_000`, lines 54–58):
converts SunCalc's south-referenced, west-positive azimuth to a
north-referenced azimuth in `[0, 2π)`:
`azN = (a + π) % 2π`, then `+ 2π` if negative. -/
noncomputable def toAzFromNorth (suncalcAzSouth0WestPlus : ℝ) : ℝ :=
  let twoPi := Real.pi * 2
  let azN := jsMod (suncalcAzSouth0WestPlus + Real.pi) twoPi
  if azN < 0 then azN + twoPi else azN

/-- The visibility test used by both builders in `buildObjects.ts`:
`showBelowHorizon || p.alt >= 0`. -/
noncomputable def visibleB (showBelowHorizon : Bool) (p : TrajPoint) : Bool :=
  showBelowHorizon || decide (0 ≤ p.alt)

/-- The per-point display size of `buildPoints` (line 113–114):
`size * (0.6 + 0.8 * k)` with `k = p.illum ?? 1`. -/
def pointSize (size : ℝ) (p : TrajPoint) : ℝ :=
  size * (0.6 + 0.8 * p.illum.getD 1)

/-- `pushCurrent` of `buildTrajectoryLinesSplitByHorizon`: the accumulated
run becomes a line only when it holds at least 2 points (the source checks
`current.length >= 6` on the flat `x,y,z` array, i.e. ≥ 2 points). -/
def pushCurrent (current : List Vec3) (lines : List (List Vec3)) :
    List (List Vec3) :=
  if 2 ≤ current.length then lines ++ [current] else lines

/-- The loop of `buildTrajectoryLinesSplitByHorizon` (lines 66–79): a visible
sample is projected and appended to the current run; an invisible sample
closes the current run. -/
noncomputable def linesGo (R : ℝ) (showBelowHorizon : Bool) :
    List TrajPoint → List Vec3 → List (List Vec3) → List (List Vec3)
  | [], current, lines => pushCurrent current lines
  | p :: rest, current, lines =>
    if visibleB showBelowHorizon p then
      linesGo R showBelowHorizon rest (current ++ [toXYZ p R]) lines
    else
      linesGo R showBelowHorizon rest [] (pushCurrent current lines)

/-- `buildTrajectoryLinesSplitByHorizon` of `buildObjects.ts` (lines 43–84),
with each emitted `THREE.Line` represented by its list of vertices. -/
noncomputable def buildTrajectoryLinesSplitByHorizon
    (points : List TrajPoint) (R : ℝ) (showBelowHorizon : Bool) :
    List (List Vec3) :=
  linesGo R showBelowHorizon points [] []

/-- The result of `buildPoints`: vertex list (the source keeps a flat
`x,y,z` array; we keep one `Vec3` per point), per-point sizes, and the
`indexMap` stored on `userData`. -/
structure PointsResult where
  verts : List Vec3
  sizes : List ℝ
  indexMap : List ℕ

/-- The loop of `buildPoints` (lines 103–115), recursing over the samples
while carrying the original index `i`; a sample is skipped when
`!showBelowHorizon && p.alt < 0`. -/
noncomputable def buildPointsGo (R size : ℝ) (showBelowHorizon : Bool) :
    ℕ → List TrajPoint → PointsResult
  | _, [] => ⟨[], [], []⟩
  | i, p :: rest =>
    if (!showBelowHorizon && decide (p.alt < 0)) then
      buildPointsGo R size showBelowHorizon (i + 1) rest
    else
      let r := buildPointsGo R size showBelowHorizon (i + 1) rest
      ⟨toXYZ p R :: r.verts, pointSize size p :: r.sizes, i :: r.indexMap⟩

/-- `buildPoints` of `buildObjects.ts` (lines 97–152). -/
noncomputable def buildPoints (points : List TrajPoint) (R : ℝ)
    (size : ℝ) (showBelowHorizon : Bool) : PointsResult :=
  buildPointsGo R size showBelowHorizon 0 points

/-- Maximal runs of consecutive visible samples, written from the spec's
words for §4.3 ("segments are maximal runs"): an invisible sample ends the
current run (possibly empty); visible samples extend it. Used as the
specification side of the refinement proof for the curve builder. -/
noncomputable def maximalVisibleRuns (showBelowHorizon : Bool) :
    List TrajPoint → List (List TrajPoint)
  | [] => [[]]
  | p :: rest =>
    match maximalVisibleRuns showBelowHorizon rest with
    | [] => []
    | r :: rs =>
      if visibleB showBelowHorizon p then (p :: r) :: rs
      else [] :: r :: rs

/-- A sample with azimuth 0, the given altitude, instant 0 and no
illumination value; used for concrete test trajectories. -/
def samplePt (alt : ℝ) : TrajPoint := ⟨0, 0, alt, none⟩

/-- Concrete 10-sample trajectory whose samples at original indices
{2, 5, 7} have negative altitude (spec §8, property 4). -/
noncomputable def pts10ex : List TrajPoint :=
  [samplePt 1, samplePt 1, samplePt (-1), samplePt 1, samplePt 1,
   samplePt (-1), samplePt 1, samplePt (-1), samplePt 1, samplePt 1]

/-- Concrete 4-sample trajectory with altitudes `+5°, -3°, +2°, +1°`
(spec §8, property 3). -/
noncomputable def pts4ex : List TrajPoint :=
  [samplePt (5 * Real.pi / 180), samplePt (-3 * Real.pi / 180),
   samplePt (2 * Real.pi / 180), samplePt (1 * Real.pi / 180)]

/-- The result of SunCalc's `getPosition` (azimuth south-referenced,
west-positive; altitude in radians): the external ephemeris engine is a
black box, passed in as a function of the instant. -/
structure SunPos where
  azimuth : ℝ
  altitude : ℝ

/-- The sampling loop of `buildSunTrajectory` (`src/unnamed/part_000`,
line 86): `for (dt = start; dt < end; dt = dt.plus({minutes: stepMin}))`,
instants in epoch milliseconds.  The fuel argument only bounds the
recursion; `endMs - startMs` steps always suffice for a positive step. -/
def sampleTimesAux (step e : ℤ) : ℕ → ℤ → List ℤ
  | 0, _ => []
  | fuel + 1, dt =>
    if dt < e then dt :: sampleTimesAux step e fuel (dt + step) else []

/-- `buildSunTrajectory` of `src/unnamed/part_000` (lines 71–113).  The
timezone resolution and `startOf("day")` of the source are external
(tz-lookup / luxon); they determine `startMs` (the local-midnight instant)
and `endMs` (`start.plus({days: 1})`), which are taken as parameters. -/
noncomputable def buildSunTrajectory (getPosition : ℤ → SunPos)
    (startMs endMs stepMin : ℤ) : List TrajPoint :=
  (sampleTimesAux (stepMin * 60000) endMs (endMs - startMs).toNat startMs).map
    fun ms =>
      ⟨ms, toAzFromNorth (getPosition ms).azimuth,
        (getPosition ms).altitude, none⟩

/-- The result of SunCalc's `getMoonIllumination`. -/
structure MoonIllumination where
  fraction : ℝ
  phase : ℝ
  angle : ℝ

/-- One pixel of the moon-phase raster drawn by `updateMoonAge`
(`Scene3D.tsx`, lines 401–479): canvas size 64, center (32, 32), disk
radius `64 * 0.45`; the light direction is derived from the phase via
`alpha = 2π·phase`, `l = (sin alpha, 0, -cos alpha)`; pixels outside the
disk are fully transparent. -/
noncomputable def moonPixel (dark : Bool) (phase : ℝ) (x y : ℕ) :
    ℝ × ℝ × ℝ × ℝ :=
  let litR : ℝ := 225
  let litG : ℝ := 222
  let litB : ℝ := 210
  let darkR : ℝ := if dark then 20 else 220
  let darkG : ℝ := if dark then 26 else 226
  let darkB : ℝ := if dark then 42 else 242
  let alpha := 2 * Real.pi * phase
  let lx := Real.sin alpha
  let lz := -Real.cos alpha
  let cx : ℝ := 32
  let cy : ℝ := 32
  let r : ℝ := 64 * 0.45
  let dx := (x : ℝ) + 0.5 - cx
  let dy := (y : ℝ) + 0.5 - cy
  let rr := dx * dx + dy * dy
  if rr > r * r then (0, 0, 0, 0)
  else
    let nx := dx / r
    let ny := dy / r
    let nz := Real.sqrt (max 0 (1 - nx * nx - ny * ny))
    let ambient : ℝ := 0.02
    let gamma : ℝ := 0.95
    let limbDark : ℝ := 0.10
    let edgeSoftness : ℝ := 0.035
    let edgeBoost : ℝ := 0.85
    let ndotl := nx * lx + nz * lz
    let t0 := -edgeSoftness
    let t1 := edgeSoftness
    let lit0 := (ndotl - t0) / (t1 - t0)
    let lit1 := min 1 (max 0 lit0)
    let lit := lit1 ^ edgeBoost
    let rim := 1 - nz
    let rimFactor := 1 - limbDark * rim
    let I0 := ambient + (1 - ambient) * lit
    let I1 := (min 1 (max 0 (I0 * rimFactor))) ^ gamma
    (darkR + (litR - darkR) * I1, darkG + (litG - darkG) * I1,
      darkB + (litB - darkB) * I1, 255)

/-- The full 64×64 moon-phase raster of `updateMoonAge`, as a function of
the `getMoonIllumination` result and the dark-mode flag — the shading loop
reads only the `phase` field. -/
noncomputable def renderMoonRaster (ill : MoonIllumination) (dark : Bool) :
    List (List (ℝ × ℝ × ℝ × ℝ)) :=
  (List.range 64).map fun y =>
    (List.range 64).map fun x => moonPixel dark ill.phase x y

/-- A geocoding search result (`CityHit` in `src/src/lib/geo.ts`). -/
structure CityHit where
  name : String
  country : Option String
  admin1 : Option String
  latitude : ℝ
  longitude : ℝ

/-- The request URL parameters set by `searchCity` (lines 32–36);
all four are set as strings on the query of the Open-Meteo endpoint. -/
structure GeoRequest where
  name : String
  count : String
  language : String
  format : String

/-- A network response: `ok` status plus the parsed `json.results ?? []`
already shaped as raw hits. -/
structure GeoResponse where
  ok : Bool
  results : List CityHit

/-- The JavaScript built-in `String.prototype.trim` used by `searchCity`
(line 29): strips whitespace from both ends of the string.  It is a JS
standard-library function, external to the repository, modelled here
structurally over the character list. -/
def jsTrim (q : String) : String :=
  ⟨((q.data.dropWhile Char.isWhitespace).reverse.dropWhile
      Char.isWhitespace).reverse⟩

/-- `searchCity` of `src/src/lib/geo.ts` (lines 27–51), with the network
abstracted as a function from the request to its response.  The second
component counts the network requests issued.  An empty (falsy) trimmed
query short-circuits; a non-ok response yields the empty list. -/
def searchCity (net : GeoRequest → GeoResponse) (q : String) :
    List CityHit × ℕ :=
  if jsTrim q = "" then ([], 0)
  else
    let res := net ⟨q, "8", "ja", "json"⟩
    if !res.ok then ([], 1)
    else (res.results.map fun r =>
      ⟨r.name, r.country, r.admin1, r.latitude, r.longitude⟩, 1)

/-- Prepends an accumulated unfinished run onto the head of a run list
(helper for stating the loop invariant of the curve builder). -/
def consHead (cur : List Vec3) : List (List Vec3) → List (List Vec3)
  | [] => [cur]
  | r :: rs => (cur ++ r) :: rs

theorem jsMod_bounds (x y : ℝ) (hy : 0 < y) :
    -y < jsMod x y ∧ jsMod x y < y := by
  have hy0 : y ≠ 0 := ne_of_gt hy
  have hxy : x = y * (x / y) := by field_simp
  unfold jsMod jsTrunc
  by_cases h : 0 ≤ x / y
  · rw [if_pos h]
    have e : x - y * ((⌊x / y⌋ : ℤ) : ℝ) = y * (x / y - ⌊x / y⌋) := by
      rw [mul_sub, ← hxy]
    have h1 : (0 : ℝ) ≤ x / y - ⌊x / y⌋ := sub_nonneg.mpr (Int.floor_le _)
    have h2 : x / y - ⌊x / y⌋ < 1 := by
      have := Int.lt_floor_add_one (x / y); linarith
    constructor
    · have : 0 ≤ y * (x / y - ⌊x / y⌋) := mul_nonneg hy.le h1
      linarith [e ▸ this]
    · have : y * (x / y - ⌊x / y⌋) < y * 1 :=
        mul_lt_mul_of_pos_left h2 hy
      rw [e]; linarith
  · rw [if_neg h]
    have e : x - y * ((⌈x / y⌉ : ℤ) : ℝ) = y * (x / y - ⌈x / y⌉) := by
      rw [mul_sub, ← hxy]
    have h1 : x / y - ⌈x / y⌉ ≤ 0 := sub_nonpos.mpr (Int.le_ceil _)
    have h2 : (-1 : ℝ) < x / y - ⌈x / y⌉ := by
      have := Int.ceil_lt_add_one (x / y); linarith
    constructor
    · have : y * (-1) < y * (x / y - ⌈x / y⌉) :=
        mul_lt_mul_of_pos_left h2 hy
      rw [e]; linarith
    · have : y * (x / y - ⌈x / y⌉) ≤ 0 := mul_nonpos_of_nonneg_of_nonpos hy.le h1
      rw [e]; linarith

theorem toAzFromNorth_mem (a : ℝ) :
    0 ≤ toAzFromNorth a ∧ toAzFromNorth a < 2 * Real.pi := by
  have hp : (0 : ℝ) < Real.pi * 2 := by positivity
  obtain ⟨hlo, hhi⟩ := jsMod_bounds (a + Real.pi) (Real.pi * 2) hp
  unfold toAzFromNorth
  by_cases h : jsMod (a + Real.pi) (Real.pi * 2) < 0
  · rw [if_pos h]; constructor <;> linarith
  · rw [if_neg h]; constructor <;> linarith

theorem toAzFromNorth_sub (a : ℝ) :
    ∃ k : ℤ, toAzFromNorth a - (a + Real.pi) = 2 * Real.pi * k := by
  unfold toAzFromNorth jsMod
  by_cases h : (a + Real.pi) - Real.pi * 2 *
      (jsTrunc ((a + Real.pi) / (Real.pi * 2)) : ℤ) < 0
  · rw [if_pos h]
    exact ⟨-(jsTrunc ((a + Real.pi) / (Real.pi * 2)) - 1), by push_cast; ring⟩
  · rw [if_neg h]
    exact ⟨-(jsTrunc ((a + Real.pi) / (Real.pi * 2))), by push_cast; ring⟩

theorem eq_of_Ico_sub_int (u v : ℝ) (k : ℤ)
    (hu0 : 0 ≤ u) (hu1 : u < 2 * Real.pi)
    (hv0 : 0 ≤ v) (hv1 : v < 2 * Real.pi)
    (h : u - v = 2 * Real.pi * k) : u = v := by
  have hp : (0 : ℝ) < 2 * Real.pi := by positivity
  have hk1 : (k : ℝ) < 1 := by
    by_contra hc
    push_neg at hc
    have : 2 * Real.pi * 1 ≤ 2 * Real.pi * k :=
      mul_le_mul_of_nonneg_left hc hp.le
    linarith
  have hk2 : (-1 : ℝ) < k := by
    by_contra hc
    push_neg at hc
    have : 2 * Real.pi * k ≤ 2 * Real.pi * (-1) :=
      mul_le_mul_of_nonneg_left hc hp.le
    linarith
  have hk0 : k = 0 := by
    have h1 : k < 1 := by exact_mod_cast hk1
    have h2 : -1 < k := by exact_mod_cast hk2
    omega
  rw [hk0] at h
  push_cast at h
  linarith

/-- **C4.** `toAzFromNorth` maps a south-referenced azimuth `a` to
`(a + π) mod 2π`, normalized into `[0, 2π)`, and for `θ ∈ [0, 2π)`,
converting twice (south→north is the same `+π mod 2π` map as north→south)
recovers `θ`. -/
theorem azimuth_conversion_correct (a : ℝ) :
    (0 ≤ toAzFromNorth a ∧ toAzFromNorth a < 2 * Real.pi ∧
      ∃ k : ℤ, toAzFromNorth a - (a + Real.pi) = 2 * Real.pi * k) ∧
    (0 ≤ a → a < 2 * Real.pi → toAzFromNorth (toAzFromNorth a) = a) := by
  obtain ⟨h0, h1⟩ := toAzFromNorth_mem a
  refine ⟨⟨h0, h1, toAzFromNorth_sub a⟩, fun ha0 ha1 => ?_⟩
  obtain ⟨k₁, hk₁⟩ := toAzFromNorth_sub a
  obtain ⟨k₂, hk₂⟩ := toAzFromNorth_sub (toAzFromNorth a)
  obtain ⟨g0, g1⟩ := toAzFromNorth_mem (toAzFromNorth a)
  refine eq_of_Ico_sub_int _ _ (k₂ + k₁ + 1) g0 g1 ha0 ha1 ?_
  push_cast
  linarith [hk₁, hk₂]

/-- Witness for C4 at `a = 0`. -/
theorem azimuth_conversion_correct_witness :
    (0 : ℝ) ≤ 0 ∧ (0 : ℝ) < 2 * Real.pi ∧
      toAzFromNorth (toAzFromNorth 0) = 0 :=
  ⟨le_refl 0, by positivity,
    (azimuth_conversion_correct 0).2 (le_refl 0) (by positivity)⟩

theorem buildPointsGo_nil (R s : ℝ) (b : Bool) (i : ℕ) :
    buildPointsGo R s b i [] = ⟨[], [], []⟩ := rfl

theorem buildPointsGo_cons (R s : ℝ) (b : Bool) (i : ℕ) (p : TrajPoint)
    (rest : List TrajPoint) :
    buildPointsGo R s b i (p :: rest) =
      if (!b && decide (p.alt < 0)) = true then
        buildPointsGo R s b (i + 1) rest
      else
        ⟨toXYZ p R :: (buildPointsGo R s b (i + 1) rest).verts,
          pointSize s p :: (buildPointsGo R s b (i + 1) rest).sizes,
          i :: (buildPointsGo R s b (i + 1) rest).indexMap⟩ := rfl

theorem buildPointsGo_length (R s : ℝ) (b : Bool) (pts : List TrajPoint) :
    ∀ i : ℕ,
      (buildPointsGo R s b i pts).verts.length =
          (buildPointsGo R s b i pts).indexMap.length ∧
        (buildPointsGo R s b i pts).sizes.length =
          (buildPointsGo R s b i pts).indexMap.length := by
  induction pts with
  | nil => intro i; simp [buildPointsGo_nil]
  | cons p rest ih =>
    intro i
    by_cases h : (!b && decide (p.alt < 0)) = true
    · rw [buildPointsGo_cons, if_pos h]; exact ih (i + 1)
    · rw [buildPointsGo_cons, if_neg h]
      have := ih (i + 1)
      simp only [List.length_cons]
      omega

theorem buildPointsGo_indexMap_mem (R s : ℝ) (b : Bool) (pts : List TrajPoint) :
    ∀ i j : ℕ, j ∈ (buildPointsGo R s b i pts).indexMap →
      i ≤ j ∧ j < i + pts.length := by
  induction pts with
  | nil => intro i j hj; simp [buildPointsGo_nil] at hj
  | cons p rest ih =>
    intro i j hj
    by_cases h : (!b && decide (p.alt < 0)) = true
    · rw [buildPointsGo_cons, if_pos h] at hj
      have := ih (i + 1) j hj
      simp only [List.length_cons]
      omega
    · rw [buildPointsGo_cons, if_neg h] at hj
      simp only [List.mem_cons] at hj
      rcases hj with hj | hj
      · simp only [List.length_cons]; omega
      · have := ih (i + 1) j hj
        simp only [List.length_cons]
        omega

theorem buildPointsGo_indexMap_pairwise (R s : ℝ) (b : Bool)
    (pts : List TrajPoint) :
    ∀ i : ℕ, (buildPointsGo R s b i pts).indexMap.Pairwise (· < ·) := by
  induction pts with
  | nil => intro i; simp [buildPointsGo_nil]
  | cons p rest ih =>
    intro i
    by_cases h : (!b && decide (p.alt < 0)) = true
    · rw [buildPointsGo_cons, if_pos h]; exact ih (i + 1)
    · rw [buildPointsGo_cons, if_neg h]
      refine List.pairwise_cons.mpr ⟨fun j hj => ?_, ih (i + 1)⟩
      have := buildPointsGo_indexMap_mem R s b rest (i + 1) j hj
      omega

theorem buildPointsGo_getElem (R s : ℝ) (b : Bool) (pts : List TrajPoint) :
    ∀ i j : ℕ,
      ((buildPointsGo R s b i pts).verts[j]? =
        ((buildPointsGo R s b i pts).indexMap[j]?).bind
          (fun idx => (pts[idx - i]?).map fun p => toXYZ p R)) ∧
      ((buildPointsGo R s b i pts).sizes[j]? =
        ((buildPointsGo R s b i pts).indexMap[j]?).bind
          (fun idx => (pts[idx - i]?).map fun p => pointSize s p)) := by
  induction pts with
  | nil => intro i j; simp [buildPointsGo_nil]
  | cons p rest ih =>
    intro i j
    have hshift : ∀ (γ : Type) (f : TrajPoint → γ) (j' : ℕ),
        ((buildPointsGo R s b (i + 1) rest).indexMap[j']?).bind
            (fun idx => ((p :: rest)[idx - i]?).map f) =
          ((buildPointsGo R s b (i + 1) rest).indexMap[j']?).bind
            (fun idx => (rest[idx - (i + 1)]?).map f) := by
      intro γ f j'
      cases hj' : (buildPointsGo R s b (i + 1) rest).indexMap[j']? with
      | none => rfl
      | some idx =>
        have hmem := List.getElem?_mem hj'
        have hge := (buildPointsGo_indexMap_mem R s b rest (i + 1) idx hmem).1
        have hidx : idx - i = (idx - (i + 1)) + 1 := by omega
        simp only [Option.some_bind]
        rw [hidx, List.getElem?_cons_succ]
    by_cases h : (!b && decide (p.alt < 0)) = true
    · rw [buildPointsGo_cons, if_pos h]
      refine ⟨?_, ?_⟩
      · rw [hshift _ (fun p => toXYZ p R) j]; exact (ih (i + 1) j).1
      · rw [hshift _ (fun p => pointSize s p) j]; exact (ih (i + 1) j).2
    · rw [buildPointsGo_cons, if_neg h]
      cases j with
      | zero => simp
      | succ j =>
        simp only [List.getElem?_cons_succ]
        refine ⟨?_, ?_⟩
        · rw [hshift _ (fun p => toXYZ p R) j]; exact (ih (i + 1) j).1
        · rw [hshift _ (fun p => pointSize s p) j]; exact (ih (i + 1) j).2

/-- **C1.** `buildPoints` returns vertex, size and index lists of equal
length; `indexMap` is strictly increasing; the vertex at emitted position
`j` is exactly the projection of `trajectory[indexMap[j]]`; and on a
10-sample trajectory whose samples at original indices {2, 5, 7} are the
exact set with negative altitude, with `showBelowHorizon = false`, seven
points are emitted with `indexMap = [0, 1, 3, 4, 6, 8, 9]`. -/
theorem index_preserving_point_set (pts : List TrajPoint) (R s : ℝ)
    (b : Bool) :
    ((buildPoints pts R s b).verts.length =
        (buildPoints pts R s b).indexMap.length ∧
      (buildPoints pts R s b).sizes.length =
        (buildPoints pts R s b).indexMap.length) ∧
    (buildPoints pts R s b).indexMap.Pairwise (· < ·) ∧
    (∀ j : ℕ, (buildPoints pts R s b).verts[j]? =
      ((buildPoints pts R s b).indexMap[j]?).bind
        (fun idx => (pts[idx]?).map fun p => toXYZ p R)) ∧
    (pts.length = 10 → b = false →
      (∀ (k : ℕ) (p : TrajPoint), pts[k]? = some p →
        (p.alt < 0 ↔ k = 2 ∨ k = 5 ∨ k = 7)) →
      (buildPoints pts R s b).verts.length = 7 ∧
        (buildPoints pts R s b).indexMap = [0, 1, 3, 4, 6, 8, 9]) := by
  refine ⟨buildPointsGo_length R s b pts 0,
    buildPointsGo_indexMap_pairwise R s b pts 0, fun j => ?_, ?_⟩
  · simpa using (buildPointsGo_getElem R s b pts 0 j).1
  · intro hlen hb hvis
    subst hb
    rcases pts with _ | ⟨p0, _ | ⟨p1, _ | ⟨p2, _ | ⟨p3, _ | ⟨p4, _ | ⟨p5,
      _ | ⟨p6, _ | ⟨p7, _ | ⟨p8, _ | ⟨p9, tail⟩⟩⟩⟩⟩⟩⟩⟩⟩⟩ <;> simp at hlen
    subst hlen
    have h0 : ¬ p0.alt < 0 := by
      rw [hvis 0 p0 (by simp)]; decide
    have h1 : ¬ p1.alt < 0 := by
      rw [hvis 1 p1 (by simp)]; decide
    have h2 : p2.alt < 0 := (hvis 2 p2 (by simp)).mpr (by decide)
    have h3 : ¬ p3.alt < 0 := by
      rw [hvis 3 p3 (by simp)]; decide
    have h4 : ¬ p4.alt < 0 := by
      rw [hvis 4 p4 (by simp)]; decide
    have h5 : p5.alt < 0 := (hvis 5 p5 (by simp)).mpr (by decide)
    have h6 : ¬ p6.alt < 0 := by
      rw [hvis 6 p6 (by simp)]; decide
    have h7 : p7.alt < 0 := (hvis 7 p7 (by simp)).mpr (by decide)
    have h8 : ¬ p8.alt < 0 := by
      rw [hvis 8 p8 (by simp)]; decide
    have h9 : ¬ p9.alt < 0 := by
      rw [hvis 9 p9 (by simp)]; decide
    simp only [buildPoints]
    rw [buildPointsGo_cons, if_neg (by simpa using h0),
      buildPointsGo_cons, if_neg (by simpa using h1),
      buildPointsGo_cons, if_pos (by simpa using h2),
      buildPointsGo_cons, if_neg (by simpa using h3),
      buildPointsGo_cons, if_neg (by simpa using h4),
      buildPointsGo_cons, if_pos (by simpa using h5),
      buildPointsGo_cons, if_neg (by simpa using h6),
      buildPointsGo_cons, if_pos (by simpa using h7),
      buildPointsGo_cons, if_neg (by simpa using h8),
      buildPointsGo_cons, if_neg (by simpa using h9),
      buildPointsGo_nil]
    exact ⟨by simp, by simp⟩

/-- Witness for C1 on the concrete trajectory `pts10ex`. -/
theorem index_preserving_point_set_witness :
    pts10ex.length = 10 ∧
      (buildPoints pts10ex 1 1 false).verts.length = 7 ∧
      (buildPoints pts10ex 1 1 false).indexMap = [0, 1, 3, 4, 6, 8, 9] := by
  have hvis : ∀ (k : ℕ) (p : TrajPoint), pts10ex[k]? = some p →
      (p.alt < 0 ↔ k = 2 ∨ k = 5 ∨ k = 7) := by
    intro k p hk
    rcases k with _ | _ | _ | _ | _ | _ | _ | _ | _ | _ | k <;>
      simp only [pts10ex, samplePt, List.getElem?_cons_zero,
        List.getElem?_cons_succ, List.getElem?_nil,
        Option.some.injEq, reduceCtorEq] at hk
    all_goals subst hk
    all_goals norm_num
  have h := (index_preserving_point_set pts10ex 1 1 false).2.2.2
    (by simp [pts10ex]) rfl hvis
  exact ⟨by simp [pts10ex], h.1, h.2⟩

theorem toXYZ_eq (p : TrajPoint) (R : ℝ) :
    toXYZ p R = (R * Real.cos p.alt * Real.sin p.azN,
      R * Real.sin p.alt, R * Real.cos p.alt * Real.cos p.azN) := rfl

theorem normSq_toXYZ (p : TrajPoint) (R : ℝ) :
    normSq (toXYZ p R) = R ^ 2 := by
  have hs := Real.sin_sq_add_cos_sq p.alt
  have ha := Real.sin_sq_add_cos_sq p.azN
  simp only [toXYZ, normSq]
  linear_combination (R ^ 2 * Real.cos p.alt ^ 2) * ha + R ^ 2 * hs

/-- **C5.** `toXYZ` realizes exactly the projection contract of §4.2:
`r = R·cos(alt)`, `x = r·sin(az)`, `y = R·sin(alt)`, `z = r·cos(az)`; at the
zenith (`alt = π/2`) the projected point is `(0, R, 0)` for every azimuth. -/
theorem coordinate_projector_contract (p : TrajPoint) (R : ℝ) :
    toXYZ p R = (R * Real.cos p.alt * Real.sin p.azN,
        R * Real.sin p.alt, R * Real.cos p.alt * Real.cos p.azN) ∧
      (p.alt = Real.pi / 2 → toXYZ p R = (0, R, 0)) := by
  refine ⟨rfl, fun h => ?_⟩
  simp [toXYZ, h, Real.cos_pi_div_two, Real.sin_pi_div_two]

/-- The claim that absent illumination yields `1.0 · baseSize` is false:
`buildPoints` on a single sun sample (no `illum` value) with `baseSize = 1`
emits the size `1.4`, not `1.0 · 1`. -/
theorem moon_size_scaling_counterexample :
    (buildPoints [samplePt 1] 1 1 true).sizes = [(1.4 : ℝ)] ∧
      (1.4 : ℝ) ≠ 1.0 * 1 := by
  constructor
  · simp only [buildPoints]
    rw [buildPointsGo_cons, if_neg (by simp), buildPointsGo_nil]
    simp only [pointSize, samplePt, Option.getD_none]
    norm_num
  · norm_num

/-- **C6 (amended).** Every emitted point's size is
`baseSize · (0.6 + 0.8 · illumination)` with the illumination defaulting
to 1 when absent; hence `illumination = 0` gives `0.6 · baseSize`,
`illumination = 1` gives `1.4 · baseSize`, and samples with no
illumination value (the sun) give `1.4 · baseSize` as well. -/
theorem moon_size_scaling (pts : List TrajPoint) (R s : ℝ) (b : Bool) :
    (∀ j : ℕ, (buildPoints pts R s b).sizes[j]? =
      ((buildPoints pts R s b).indexMap[j]?).bind
        (fun idx => (pts[idx]?).map fun p => pointSize s p)) ∧
    (∀ (t : ℤ) (az altv : ℝ), pointSize s ⟨t, az, altv, some 0⟩ = 0.6 * s) ∧
    (∀ (t : ℤ) (az altv : ℝ), pointSize s ⟨t, az, altv, some 1⟩ = 1.4 * s) ∧
    (∀ (t : ℤ) (az altv : ℝ), pointSize s ⟨t, az, altv, none⟩ = 1.4 * s) := by
  refine ⟨fun j => by simpa using (buildPointsGo_getElem R s b pts 0 j).2,
    ?_, ?_, ?_⟩ <;>
    · intro t az altv
      simp only [pointSize, Option.getD_some, Option.getD_none]
      ring

theorem buildPointsGo_true_eq (R s : ℝ) (pts : List TrajPoint) :
    ∀ i : ℕ, buildPointsGo R s true i pts =
      ⟨pts.map (fun p => toXYZ p R), pts.map (fun p => pointSize s p),
        (List.range pts.length).map (fun k => i + k)⟩ := by
  induction pts with
  | nil => intro i; simp [buildPointsGo_nil]
  | cons p rest ih =>
    intro i
    rw [buildPointsGo_cons, if_neg (by simp), ih (i + 1)]
    simp only [List.map_cons, List.length_cons]
    have hr : (List.range (rest.length + 1)).map (fun k => i + k) =
        i :: (List.range rest.length).map (fun k => (i + 1) + k) := by
      rw [List.range_succ_eq_map, List.map_cons, List.map_map]
      refine congrArg₂ _ (by simp) ?_
      refine List.map_congr_left fun a _ => ?_
      simp only [Function.comp_apply]
      omega
    rw [hr]

theorem linesGo_nil (R : ℝ) (b : Bool) (cur : List Vec3)
    (lines : List (List Vec3)) :
    linesGo R b [] cur lines = pushCurrent cur lines := rfl

theorem linesGo_cons (R : ℝ) (b : Bool) (p : TrajPoint)
    (rest : List TrajPoint) (cur : List Vec3) (lines : List (List Vec3)) :
    linesGo R b (p :: rest) cur lines =
      if visibleB b p then linesGo R b rest (cur ++ [toXYZ p R]) lines
      else linesGo R b rest [] (pushCurrent cur lines) := rfl

theorem linesGo_true_eq (R : ℝ) (pts : List TrajPoint) :
    ∀ (cur : List Vec3) (lines : List (List Vec3)),
      linesGo R true pts cur lines =
        pushCurrent (cur ++ pts.map (fun p => toXYZ p R)) lines := by
  induction pts with
  | nil => intro cur lines; rw [linesGo_nil]; simp
  | cons p rest ih =>
    intro cur lines
    rw [linesGo_cons, if_pos (by simp [visibleB]), ih]
    simp [List.append_assoc]

/-- **C10.** With `showBelowHorizon = true` nothing is filtered:
`buildPoints` emits one point per sample with the identity `indexMap`, and
the curve builder emits a single polyline holding every projected sample
when there are at least two samples, and nothing otherwise. -/
theorem include_below_horizon_keeps_everything (pts : List TrajPoint)
    (R s : ℝ) :
    (buildPoints pts R s true).verts = pts.map (fun p => toXYZ p R) ∧
    (buildPoints pts R s true).verts.length = pts.length ∧
    (buildPoints pts R s true).indexMap = List.range pts.length ∧
    buildTrajectoryLinesSplitByHorizon pts R true =
      (if 2 ≤ pts.length then [pts.map (fun p => toXYZ p R)] else []) := by
  have h := buildPointsGo_true_eq R s pts 0
  refine ⟨?_, ?_, ?_, ?_⟩
  · rw [buildPoints, h]
  · rw [buildPoints, h]; simp
  · rw [buildPoints, h]; simp
  · rw [buildTrajectoryLinesSplitByHorizon, linesGo_true_eq]
    simp [pushCurrent]

theorem maximalVisibleRuns_nil (b : Bool) :
    maximalVisibleRuns b [] = [[]] := rfl

theorem maximalVisibleRuns_cons_eq (b : Bool) (p : TrajPoint)
    (rest : List TrajPoint) (r : List TrajPoint) (rs : List (List TrajPoint))
    (hr : maximalVisibleRuns b rest = r :: rs) :
    maximalVisibleRuns b (p :: rest) =
      if visibleB b p then (p :: r) :: rs else [] :: r :: rs := by
  rw [show maximalVisibleRuns b (p :: rest) =
    (match maximalVisibleRuns b rest with
      | [] => []
      | r :: rs => if visibleB b p then (p :: r) :: rs else [] :: r :: rs)
    from rfl, hr]

theorem maximalVisibleRuns_ne_nil (b : Bool) (pts : List TrajPoint) :
    maximalVisibleRuns b pts ≠ [] := by
  induction pts with
  | nil => simp [maximalVisibleRuns_nil]
  | cons p rest ih =>
    rcases hr : maximalVisibleRuns b rest with _ | ⟨r, rs⟩
    · exact absurd hr ih
    · rw [maximalVisibleRuns_cons_eq b p rest r rs hr]
      by_cases h : visibleB b p = true
      · rw [if_pos h]; simp
      · rw [if_neg h]; simp

theorem maximalVisibleRuns_join (b : Bool) (pts : List TrajPoint) :
    (maximalVisibleRuns b pts).flatten = pts.filter (visibleB b) := by
  induction pts with
  | nil => simp [maximalVisibleRuns_nil]
  | cons p rest ih =>
    rcases hr : maximalVisibleRuns b rest with _ | ⟨r, rs⟩
    · exact absurd hr (maximalVisibleRuns_ne_nil b rest)
    · rw [maximalVisibleRuns_cons_eq b p rest r rs hr, List.filter_cons]
      by_cases h : visibleB b p = true
      · rw [if_pos h, if_pos h, ← ih, hr]
        simp
      · rw [if_neg h, if_neg h, ← ih, hr]
        simp

theorem maximalVisibleRuns_visible (b : Bool) (pts : List TrajPoint) :
    ∀ r ∈ maximalVisibleRuns b pts, ∀ p ∈ r, visibleB b p = true := by
  induction pts with
  | nil =>
    intro r hr p hp
    rw [maximalVisibleRuns_nil] at hr
    simp only [List.mem_singleton] at hr
    subst hr
    simp at hp
  | cons q rest ih =>
    intro r hr p hp
    rcases hq : maximalVisibleRuns b rest with _ | ⟨r0, rs⟩
    · exact absurd hq (maximalVisibleRuns_ne_nil b rest)
    · rw [maximalVisibleRuns_cons_eq b q rest r0 rs hq] at hr
      by_cases h : visibleB b q = true
      · rw [if_pos h] at hr
        simp only [List.mem_cons] at hr
        rcases hr with rfl | hr
        · simp only [List.mem_cons] at hp
          rcases hp with rfl | hp
          · exact h
          · exact ih r0 (by rw [hq]; exact List.mem_cons_self r0 rs) p hp
        · exact ih r (by rw [hq]; exact List.mem_cons_of_mem r0 hr) p hp
      · rw [if_neg h] at hr
        simp only [List.mem_cons] at hr
        rcases hr with rfl | hr
        · simp at hp
        · exact ih r (by rw [hq]; exact List.mem_cons.mpr hr) p hp

theorem linesGo_eq_runs (R : ℝ) (b : Bool) (pts : List TrajPoint) :
    ∀ (cur : List Vec3) (lines : List (List Vec3)),
      linesGo R b pts cur lines =
        lines ++ (consHead cur ((maximalVisibleRuns b pts).map
          (fun r => r.map (fun p => toXYZ p R)))).filter
            (fun l => decide (2 ≤ l.length)) := by
  induction pts with
  | nil =>
    intro cur lines
    rw [linesGo_nil, maximalVisibleRuns_nil]
    by_cases h : 2 ≤ cur.length
    · simp [pushCurrent, consHead, h]
    · simp [pushCurrent, consHead, h]
  | cons p rest ih =>
    intro cur lines
    rcases hr : maximalVisibleRuns b rest with _ | ⟨r, rs⟩
    · exact absurd hr (maximalVisibleRuns_ne_nil b rest)
    rw [linesGo_cons, maximalVisibleRuns_cons_eq b p rest r rs hr]
    by_cases h : visibleB b p = true
    · rw [if_pos h, if_pos h, ih (cur ++ [toXYZ p R]) lines, hr]
      simp [consHead, List.append_assoc]
    · rw [if_neg h, if_neg h, ih [] (pushCurrent cur lines), hr]
      simp only [List.map_cons, consHead, List.nil_append, List.append_nil,
        List.filter_cons]
      by_cases hc : 2 ≤ cur.length
      · simp [pushCurrent, hc, List.append_assoc]
      · simp [pushCurrent, hc]

/-- **C2.** The curve builder emits exactly the maximal runs of consecutive
visible samples (visible iff `includeBelowHorizon OR altitude ≥ 0`;
altitude exactly 0 is visible under every policy), projected, in input
order, with runs of fewer than 2 points discarded; the runs partition the
visible samples in order; and on the trajectory `[+5°, -3°, +2°, +1°]`
with `includeBelowHorizon = false` exactly one polyline of length 2 is
emitted. -/
theorem horizon_segmenting_curve_builder (pts : List TrajPoint) (R : ℝ)
    (b : Bool) :
    buildTrajectoryLinesSplitByHorizon pts R b =
      ((maximalVisibleRuns b pts).map
        (fun r => r.map (fun p => toXYZ p R))).filter
          (fun l => decide (2 ≤ l.length)) ∧
    (∀ r ∈ maximalVisibleRuns b pts, ∀ p ∈ r, visibleB b p = true) ∧
    (maximalVisibleRuns b pts).flatten = pts.filter (visibleB b) ∧
    (∀ p : TrajPoint, p.alt = 0 → visibleB b p = true) ∧
    (∀ p0 p1 p2 p3 : TrajPoint,
      p0.alt = 5 * Real.pi / 180 → p1.alt = -3 * Real.pi / 180 →
      p2.alt = 2 * Real.pi / 180 → p3.alt = 1 * Real.pi / 180 →
      (buildTrajectoryLinesSplitByHorizon [p0, p1, p2, p3] R false).length
          = 1 ∧
        ∀ l ∈ buildTrajectoryLinesSplitByHorizon [p0, p1, p2, p3] R false,
          l.length = 2) := by
  refine ⟨?_, maximalVisibleRuns_visible b pts, maximalVisibleRuns_join b pts,
    fun p hp => by simp [visibleB, hp], ?_⟩
  · rw [buildTrajectoryLinesSplitByHorizon, linesGo_eq_runs]
    rcases hr : maximalVisibleRuns b pts with _ | ⟨r, rs⟩
    · exact absurd hr (maximalVisibleRuns_ne_nil b pts)
    · simp [consHead, hr]
  · intro p0 p1 p2 p3 h0 h1 h2 h3
    have v0 : visibleB false p0 = true := by
      simp only [visibleB, Bool.false_or, decide_eq_true_eq, h0]
      positivity
    have v1 : ¬ visibleB false p1 = true := by
      simp only [visibleB, Bool.false_or, decide_eq_true_eq, h1]
      intro hcon
      nlinarith [Real.pi_pos]
    have v2 : visibleB false p2 = true := by
      simp only [visibleB, Bool.false_or, decide_eq_true_eq, h2]
      positivity
    have v3 : visibleB false p3 = true := by
      simp only [visibleB, Bool.false_or, decide_eq_true_eq, h3]
      positivity
    rw [buildTrajectoryLinesSplitByHorizon,
      linesGo_cons, if_pos v0, linesGo_cons, if_neg v1,
      linesGo_cons, if_pos v2, linesGo_cons, if_pos v3, linesGo_nil]
    constructor
    · simp [pushCurrent]
    · intro l hl
      simp only [pushCurrent, List.nil_append, List.length_cons,
        List.length_singleton, List.length_nil] at hl
      norm_num at hl
      subst hl
      simp

/-- Witness for C2 on the concrete trajectory `pts4ex`. -/
theorem horizon_segmenting_curve_builder_witness :
    (buildTrajectoryLinesSplitByHorizon pts4ex 1 false).length = 1 ∧
      ∀ l ∈ buildTrajectoryLinesSplitByHorizon pts4ex 1 false,
        l.length = 2 := by
  have h := (horizon_segmenting_curve_builder pts4ex 1 false).2.2.2.2
    (samplePt (5 * Real.pi / 180)) (samplePt (-3 * Real.pi / 180))
    (samplePt (2 * Real.pi / 180)) (samplePt (1 * Real.pi / 180))
    rfl rfl rfl rfl
  simpa [pts4ex] using h

theorem buildPointsGo_verts_mem (R s : ℝ) (b : Bool) (pts : List TrajPoint) :
    ∀ i : ℕ, ∀ v ∈ (buildPointsGo R s b i pts).verts,
      ∃ p ∈ pts, v = toXYZ p R := by
  induction pts with
  | nil => intro i v hv; rw [buildPointsGo_nil] at hv; simp at hv
  | cons p rest ih =>
    intro i v hv
    by_cases h : (!b && decide (p.alt < 0)) = true
    · rw [buildPointsGo_cons, if_pos h] at hv
      obtain ⟨q, hq, hvq⟩ := ih (i + 1) v hv
      exact ⟨q, List.mem_cons_of_mem p hq, hvq⟩
    · rw [buildPointsGo_cons, if_neg h] at hv
      simp only [List.mem_cons] at hv
      rcases hv with rfl | hv
      · exact ⟨p, List.mem_cons_self p rest, rfl⟩
      · obtain ⟨q, hq, hvq⟩ := ih (i + 1) v hv
        exact ⟨q, List.mem_cons_of_mem p hq, hvq⟩

/-- **C9.** Every point projected by `toXYZ` satisfies
`x² + y² + z² = R²` in exact real arithmetic, and consequently every
vertex emitted by the curve builder and by the point-set builder lies on
the sphere of radius `R`. -/
theorem emitted_vertices_on_sphere (pts : List TrajPoint) (R s : ℝ)
    (b : Bool) :
    (∀ p : TrajPoint, normSq (toXYZ p R) = R ^ 2) ∧
    (∀ seg ∈ buildTrajectoryLinesSplitByHorizon pts R b,
      ∀ v ∈ seg, normSq v = R ^ 2) ∧
    (∀ v ∈ (buildPoints pts R s b).verts, normSq v = R ^ 2) := by
  refine ⟨fun p => normSq_toXYZ p R, ?_, ?_⟩
  · intro seg hseg v hv
    rw [buildTrajectoryLinesSplitByHorizon, linesGo_eq_runs,
      List.nil_append] at hseg
    have hseg' := List.mem_of_mem_filter hseg
    rcases hr : maximalVisibleRuns b pts with _ | ⟨r, rs⟩
    · exact absurd hr (maximalVisibleRuns_ne_nil b pts)
    · rw [hr] at hseg'
      simp only [List.map_cons, consHead, List.nil_append] at hseg'
      have hmap : seg ∈ (r :: rs).map
          (fun rr => rr.map (fun p => toXYZ p R)) := by
        simpa using hseg'
      obtain ⟨run, _, rfl⟩ := List.mem_map.mp hmap
      obtain ⟨p, _, rfl⟩ := List.mem_map.mp hv
      exact normSq_toXYZ p R
  · intro v hv
    obtain ⟨p, _, rfl⟩ := buildPointsGo_verts_mem R s b pts 0 v hv
    exact normSq_toXYZ p R

/-- Witness for C9 on a one-sample trajectory. -/
theorem emitted_vertices_on_sphere_witness :
    toXYZ (samplePt 0) 1 ∈ (buildPoints [samplePt 0] 1 1 true).verts ∧
      normSq (toXYZ (samplePt 0) 1) = 1 ^ 2 := by
  have hmem : toXYZ (samplePt 0) 1 ∈ (buildPoints [samplePt 0] 1 1 true).verts := by
    simp only [buildPoints]
    rw [buildPointsGo_cons, if_neg (by simp), buildPointsGo_nil]
    exact List.mem_singleton.mpr rfl
  exact ⟨hmem, (emitted_vertices_on_sphere [samplePt 0] 1 1 true).2.2 _ hmem⟩

theorem sampleTimesAux_zero (step e s : ℤ) :
    sampleTimesAux step e 0 s = [] := rfl

theorem sampleTimesAux_succ (step e : ℤ) (f : ℕ) (s : ℤ) :
    sampleTimesAux step e (f + 1) s =
      if s < e then s :: sampleTimesAux step e f (s + step) else [] := rfl

theorem sampleTimesAux_eq (step : ℤ) (hstep : 0 < step) :
    ∀ (n fuel : ℕ), n ≤ fuel → ∀ s : ℤ,
      sampleTimesAux step (s + n * step) fuel s =
        (List.range n).map (fun k : ℕ => s + (k : ℤ) * step) := by
  intro n
  induction n with
  | zero =>
    intro fuel _ s
    cases fuel with
    | zero => rfl
    | succ f =>
      rw [sampleTimesAux_succ, if_neg (by simp)]
      simp
  | succ n ih =>
    intro fuel hf s
    cases fuel with
    | zero => omega
    | succ f =>
      have he : s + ((n + 1 : ℕ) : ℤ) * step = (s + step) + (n : ℤ) * step := by
        push_cast
        ring
      rw [sampleTimesAux_succ, he, if_pos, ih f (by omega) (s + step),
        List.range_succ_eq_map, List.map_cons, List.map_map]
      · refine congrArg₂ _ (by simp) ?_
        refine List.map_congr_left fun a _ => ?_
        simp only [Function.comp_apply]
        push_cast
        ring
      · have hnn : (0 : ℤ) ≤ (n : ℤ) * step :=
          mul_nonneg (Int.natCast_nonneg n) hstep.le
        linarith

/-- **C3.** Over a 24-hour local day with `stepMinutes = 10`, the sun
trajectory sampler emits exactly 144 samples, one per 10-minute increment
in `[local midnight, local midnight + 24h)`, with instants strictly
increasing and the first sample at local midnight. -/
theorem trajectory_sampler_coverage (getPosition : ℤ → SunPos)
    (startMs endMs : ℤ) (hday : endMs = startMs + 86400000) :
    (buildSunTrajectory getPosition startMs endMs 10).length = 144 ∧
    (buildSunTrajectory getPosition startMs endMs 10).map (fun p => p.t) =
      (List.range 144).map (fun k : ℕ => startMs + (k : ℤ) * 600000) ∧
    List.Chain' (fun a b => a < b)
      ((buildSunTrajectory getPosition startMs endMs 10).map
        (fun p => p.t)) ∧
    (buildSunTrajectory getPosition startMs endMs 10).head?.map
        (fun p => p.t) = some startMs := by
  subst hday
  have hfuel : (startMs + 86400000 - startMs).toNat = 86400000 := by omega
  have hsteps : sampleTimesAux 600000 (startMs + 86400000) 86400000 startMs =
      (List.range 144).map (fun k : ℕ => startMs + (k : ℤ) * 600000) := by
    have h := sampleTimesAux_eq 600000 (by norm_num) 144 86400000
      (by norm_num) startMs
    rw [show (((144 : ℕ) : ℤ)) * 600000 = 86400000 from by norm_num] at h
    exact h
  have htraj : buildSunTrajectory getPosition startMs
      (startMs + 86400000) 10 =
      ((List.range 144).map (fun k : ℕ => startMs + (k : ℤ) * 600000)).map
        (fun ms => (⟨ms, toAzFromNorth (getPosition ms).azimuth,
          (getPosition ms).altitude, none⟩ : TrajPoint)) := by
    rw [buildSunTrajectory, hfuel,
      show (10 : ℤ) * 60000 = 600000 from by norm_num, hsteps]
  have htimes : (buildSunTrajectory getPosition startMs
      (startMs + 86400000) 10).map (fun p => p.t) =
      (List.range 144).map (fun k : ℕ => startMs + (k : ℤ) * 600000) := by
    rw [htraj, List.map_map]
    simp [Function.comp]
  refine ⟨?_, htimes, ?_, ?_⟩
  · have := congrArg List.length htimes
    simpa using this
  · rw [htimes]
    have hpw : ((List.range 144).map
        (fun k : ℕ => startMs + (k : ℤ) * 600000)).Pairwise
          (fun a b => a < b) := by
      refine List.Pairwise.map _ ?_ (List.pairwise_lt_range 144)
      intro a c hac
      have : (a : ℤ) < (c : ℤ) := by exact_mod_cast hac
      omega
    exact hpw.chain'
  · rw [← List.head?_map, htimes]
    simp [List.head?_eq_getElem?]

/-- Witness for C3 at local midnight instant 0. -/
theorem trajectory_sampler_coverage_witness :
    (buildSunTrajectory (fun _ => ⟨0, 0⟩) 0 86400000 10).length = 144 :=
  (trajectory_sampler_coverage (fun _ => ⟨0, 0⟩) 0 86400000 (by norm_num)).1

/-- **C7.** The moon-phase raster depends only on the phase fraction and
the dark-mode flag: two `getMoonIllumination` results with the same
`phase` produce identical pixel data whatever their illumination
`fraction` (the fraction is never read by the shading loop). -/
theorem moon_raster_depends_only_on_phase (i1 i2 : MoonIllumination)
    (dark : Bool) (h : i1.phase = i2.phase) :
    renderMoonRaster i1 dark = renderMoonRaster i2 dark := by
  unfold renderMoonRaster
  rw [h]

/-- Witness for C7: equal phase, different fractions. -/
theorem moon_raster_depends_only_on_phase_witness :
    renderMoonRaster ⟨0.3, 0.25, 0⟩ true =
      renderMoonRaster ⟨0.9, 0.25, 0.7⟩ true :=
  moon_raster_depends_only_on_phase ⟨0.3, 0.25, 0⟩ ⟨0.9, 0.25, 0.7⟩ true rfl

/-- **C8.** `searchCity` short-circuits a whitespace-only query to the
empty list with no network request; a non-ok response yields the empty
list; and, provided the geocoding service honors the `count=8` request
parameter it is always sent, at most 8 results are returned. -/
theorem geocoding_search_contract (net : GeoRequest → GeoResponse)
    (q : String) :
    (jsTrim q = "" → searchCity net q = ([], 0)) ∧
    ((net ⟨q, "8", "ja", "json"⟩).ok = false →
      (searchCity net q).1 = []) ∧
    ((∀ r : GeoRequest, r.count = "8" → ((net r).results).length ≤ 8) →
      (searchCity net q).1.length ≤ 8) := by
  refine ⟨fun hq => by simp [searchCity, hq], fun hok => ?_, fun hcap => ?_⟩
  · by_cases hq : jsTrim q = ""
    · simp [searchCity, hq]
    · simp [searchCity, hq, hok]
  · by_cases hq : jsTrim q = ""
    · simp [searchCity, hq]
    · by_cases hok : (net ⟨q, "8", "ja", "json"⟩).ok = true
      · have hlen := hcap ⟨q, "8", "ja", "json"⟩ rfl
        simp only [searchCity, hq, if_neg, hok, Bool.not_true]
        simp [hok, hlen]
      · have hok' : (net ⟨q, "8", "ja", "json"⟩).ok = false := by
          simpa using hok
        simp [searchCity, hq, hok']

/-- Witness for C8: a whitespace query and a failing network. -/
theorem geocoding_search_contract_witness :
    searchCity (fun _ => ⟨false, []⟩) " " = ([], 0) ∧
      (searchCity (fun _ => ⟨false, []⟩) "tokyo").1 = [] ∧
      (searchCity (fun _ => ⟨false, []⟩) "tokyo").1.length ≤ 8 :=
  ⟨(geocoding_search_contract (fun _ => ⟨false, []⟩) " ").1 (by decide),
    (geocoding_search_contract (fun _ => ⟨false, []⟩) "tokyo").2.1 rfl,
    (geocoding_search_contract (fun _ => ⟨false, []⟩) "tokyo").2.2
      (fun r _ => by simp)⟩

/-- Witness for C5 at the zenith sample. -/
theorem coordinate_projector_contract_witness :
    toXYZ (samplePt (Real.pi / 2)) 1 = (0, 1, 0) :=
  (coordinate_projector_contract (samplePt (Real.pi / 2)) 1).2 rfl
